import Mathlib

/-!
Verification development for the signalsFinal hum-removal application.

The repository consists of a Flask backend (the hum-detection-and-removal
engine, file backend/app.py) and a React frontend (frontend/src/App.jsx and
frontend/src/App_iOS.jsx).  The backend source file app.py is not part of the
checkout; only its README, the architecture documents and the frontend callers
are.  The engine definitions below are therefore modelled from the written
specification (spec.md sections 3, 4, 6, 7, 8) and the architecture documents,
while the frontend definitions are translated directly from App.jsx.
-/

namespace HumRemoval

/-- A second-order (biquad) digital filter section: six coefficients.
The stored coefficients are the ones after normalization by a0. -/
structure Coeffs (α : Type) where
  b0 : α
  b1 : α
  b2 : α
  a0 : α
  a1 : α
  a2 : α

/-- Modelled from the spec: the direct-form biquad recurrence
y[n] = b0 x[n] + b1 x[n-1] + b2 x[n-2] - a1 y[n-1] - a2 y[n-2]
with zero initial conditions, carried by the four state arguments
(x[n-1], x[n-2], y[n-1], y[n-2]). -/
def forwardAux {α : Type} [LinearOrderedField α] (c : Coeffs α) :
    List α → α → α → α → α → List α
  | [], _, _, _, _ => []
  | x :: xs, x1, x2, y1, y2 =>
    let y := c.b0 * x + c.b1 * x1 + c.b2 * x2 - c.a1 * y1 - c.a2 * y2
    y :: forwardAux c xs x x1 y y1

/-- Modelled from the spec: one forward pass of the direct-form biquad
recurrence over a full channel, starting from zero initial conditions. -/
def biquadForward {α : Type} [LinearOrderedField α] (c : Coeffs α) (xs : List α) : List α :=
  forwardAux c xs 0 0 0 0

/-- Modelled from the spec: zero-phase filtering.  Run the recurrence once
forward over the full channel, then run it again over the reversed output,
and reverse the result again. -/
def filtfilt {α : Type} [LinearOrderedField α] (c : Coeffs α) (xs : List α) : List α :=
  (biquadForward c ((biquadForward c xs).reverse)).reverse

/-- Modelled from the spec: saturating clip of one sample to [-1, 1]. -/
def clip1 {α : Type} [LinearOrderedField α] (x : α) : α :=
  max (-1) (min 1 x)

/-- Modelled from the spec: the cascade core, applying each filter in list
order, each zero-phase pass consuming the output of the previous pass. -/
def runCascade {α : Type} [LinearOrderedField α] (cs : List (Coeffs α)) (xs : List α) : List α :=
  cs.foldl (fun acc c => filtfilt c acc) xs

/-- Modelled from the spec: the Filter Cascade Applier for one channel.
A channel shorter than 3 samples passes through unmodified; otherwise the
cascade runs and the samples are clipped to [-1, 1] after all filters. -/
def applyCascade {α : Type} [LinearOrderedField α] (cs : List (Coeffs α)) (ch : List α) : List α :=
  if ch.length < 3 then ch else (runCascade cs ch).map clip1

/-- A PCM buffer: one sample list per channel, plus the sample rate. -/
structure AudioBuffer where
  channels : List (List ℝ)
  sampleRate : ℚ

/-- Number of samples per channel.  Under the buffer invariant every channel
has the same length, so the first channel is representative. -/
def AudioBuffer.numSamples (b : AudioBuffer) : ℕ :=
  (b.channels.headD []).length

/-- The target-frequency choice of a processing request. -/
inductive TargetFrequency
  | auto
  | explicit (f : ℚ)

/-- Parameters of one processing run. -/
structure ProcessingRequest where
  targetFrequency : TargetFrequency
  harmonicCount : ℕ
  qualityFactor : ℚ

/-- Result of hum detection: the winning candidate and its score. -/
structure HumCandidate where
  frequency : ℚ
  score : ℝ

/-- Result of a processing run. -/
structure ProcessingResult where
  buffer : AudioBuffer
  resolvedFrequency : ℚ
  harmonicsApplied : List ℚ

/-- Error taxonomy of the core. -/
inductive ProcessingError
  | emptyBuffer
  | invalidFrequency
  | insufficientData
  deriving DecidableEq

/-- Modelled from the spec: the Design-stage harmonic list.  One frequency per
harmonic index 1..n, keeping those the Notch Filter Designer accepts
(0 < f and f below Nyquist); the others are silently dropped. -/
def validHarmonics (fund : ℚ) (n : ℕ) (fs : ℚ) : List ℚ :=
  ((List.range n).map (fun k : ℕ => ((k : ℚ) + 1) * fund)).filter
    (fun h => decide (0 < h ∧ h < fs / 2))

/-- Modelled from the spec: the Notch Filter Designer.  Angular frequency
w0 = 2 pi f / fs, bandwidth alpha = sin w0 / (2 Q), raw coefficients
b = (1, -2 cos w0, 1) and a = (1 + alpha, -2 cos w0, 1 - alpha), all stored
after division by a0. -/
noncomputable def designNotch (f qf fs : ℚ) : Coeffs ℝ :=
  let w0 : ℝ := 2 * Real.pi * (f : ℝ) / (fs : ℝ)
  let alpha : ℝ := Real.sin w0 / (2 * (qf : ℝ))
  let a0 : ℝ := 1 + alpha
  ⟨1 / a0, -2 * Real.cos w0 / a0, 1 / a0, a0 / a0, -2 * Real.cos w0 / a0, (1 - alpha) / a0⟩

/-- Modelled from the spec: a Hann window value for index n of a length-len
frame, used to reduce spectral leakage before the transform. -/
noncomputable def hannWindow (n len : ℕ) : ℝ :=
  if len ≤ 1 then 1 else (1 - Real.cos (2 * Real.pi * (n : ℝ) / ((len : ℝ) - 1))) / 2

/-- Modelled from the spec: the Spectral Analyzer magnitude at one frequency,
a discrete Fourier magnitude of the Hann-windowed channel. -/
noncomputable def magnitudeAt (xs : List ℝ) (fs f : ℚ) : ℝ :=
  let n := xs.length
  let w : ℕ → ℝ := fun i => hannWindow i n * xs.getD i 0
  Real.sqrt
    ((∑ i ∈ Finset.range n, w i * Real.cos (2 * Real.pi * (f : ℝ) * (i : ℝ) / (fs : ℝ))) ^ 2 +
      (∑ i ∈ Finset.range n, w i * Real.sin (2 * Real.pi * (f : ℝ) * (i : ℝ) / (fs : ℝ))) ^ 2)

/-- Median of a list of reals: middle element of the sorted list, 0 if empty. -/
noncomputable def median (l : List ℝ) : ℝ :=
  (l.mergeSort (fun a b => decide (a ≤ b))).getD (l.length / 2) 0

/-- Modelled from the spec: the local noise floor around a candidate, the
median magnitude in a surrounding band (here 41 one-hertz steps centred at
the candidate). -/
noncomputable def noiseFloor (xs : List ℝ) (fs c : ℚ) : ℝ :=
  median ((List.range 41).map (fun i => magnitudeAt xs fs (c - 20 + (i : ℚ))))

/-- Modelled from the spec: the Hum Detector score of one candidate, the
summed magnitude at the fundamental and its first two harmonics normalized
by the local noise floor.  The detector works on a single-channel slice. -/
noncomputable def humScore (b : AudioBuffer) (c : ℚ) : ℝ :=
  let xs := b.channels.headD []
  (magnitudeAt xs b.sampleRate c + magnitudeAt xs b.sampleRate (2 * c) +
      magnitudeAt xs b.sampleRate (3 * c)) /
    noiseFloor xs b.sampleRate c

/-- Modelled from the spec: the fixed low-confidence threshold of the Hum
Detector.  Scores below it mean no clear hum line; the detector still
answers, so the value never influences the returned candidate. -/
noncomputable def detectionThreshold : ℝ := 1 / 2

/-- Modelled from the spec: the candidate (50 Hz or 60 Hz) with the higher
score, together with that score. -/
noncomputable def bestCandidate (b : AudioBuffer) : HumCandidate :=
  if humScore b 60 < humScore b 50 then ⟨50, humScore b 50⟩ else ⟨60, humScore b 60⟩

/-- Modelled from the spec: detectHum.  Only a zero-length buffer is
rejected; every well-formed non-empty buffer gets a best-effort answer. -/
noncomputable def detectHum (b : AudioBuffer) : Except ProcessingError HumCandidate :=
  if b.numSamples = 0 then .error .insufficientData else .ok (bestCandidate b)

/-- Modelled from the spec: the Resolve stage, taking the explicit target
frequency of the request, or the best detected candidate in auto mode. -/
noncomputable def resolveFrequency (b : AudioBuffer) (req : ProcessingRequest) : ℚ :=
  match req.targetFrequency with
  | .explicit f => f
  | .auto => (bestCandidate b).frequency

/-- Modelled from the spec: the Design stage, one filter per surviving
harmonic, in ascending harmonic order. -/
noncomputable def designStage (b : AudioBuffer) (req : ProcessingRequest) : List (Coeffs ℝ) :=
  (validHarmonics (resolveFrequency b req) req.harmonicCount b.sampleRate).map
    (fun h => designNotch h req.qualityFactor b.sampleRate)

/-- Modelled from the spec: removeHum, the Hum Removal Orchestrator.
A zero-length buffer is fatal before any filter work; a buffer too short
for the recurrence passes through unchanged with no harmonics applied;
otherwise every channel independently gets the zero-phase cascade of the
designed filters, and the applied harmonics are reported as metadata. -/
noncomputable def removeHum (b : AudioBuffer) (req : ProcessingRequest) :
    Except ProcessingError ProcessingResult :=
  if b.numSamples = 0 then .error .emptyBuffer
  else
    if b.numSamples < 3 then .ok ⟨b, resolveFrequency b req, []⟩
    else
      .ok ⟨⟨b.channels.map (applyCascade (designStage b req)), b.sampleRate⟩,
        resolveFrequency b req,
        validHarmonics (resolveFrequency b req) req.harmonicCount b.sampleRate⟩

/-- A file object as seen by the client-side validator: name, byte size and
MIME type. -/
structure JsFile where
  name : String
  size : ℕ
  type : String

/-- The 50 MB client-side size limit of validateFile (App.jsx). -/
def maxSize : ℕ := 50 * 1024 * 1024

/-- The MIME types accepted by validateFile (App.jsx). -/
def allowedTypes : List String :=
  ["audio/wav", "audio/mpeg", "audio/mp3", "audio/ogg", "audio/flac"]

/-- The filename extensions accepted by validateFile (App.jsx). -/
def allowedExtensions : List String :=
  [".wav", ".mp3", ".ogg", ".flac"]

/-- The extension computed by validateFile: a dot followed by the lowercased
last dot-separated component of the file name. -/
def fileExtension (name : String) : String :=
  "." ++ ((name.splitOn ".").getLastD "").toLower

/-- The two error outcomes of validateFile. -/
inductive FileError
  | tooLarge
  | invalidType
  deriving DecidableEq

/-- Client-side validateFile from App.jsx: the size check first, then the
type-or-extension check. -/
def validateFile (f : JsFile) : Except FileError Unit :=
  if maxSize < f.size then .error .tooLarge
  else
    if ¬ f.type ∈ allowedTypes ∧ ¬ fileExtension f.name ∈ allowedExtensions then
      .error .invalidType
    else .ok ()

/-- The frequency selection state of the request layer (App.jsx): the string
auto or a numeric frequency. -/
inductive FreqSelection
  | auto
  | hz (n : ℕ)

/-- The string a FreqSelection contributes to the multipart form body, as
FormData.append stringifies it in JavaScript. -/
def freqFieldValue : FreqSelection → String
  | .auto => "auto"
  | .hz n => toString n

/-- The form body built by handleProcessAudio in App.jsx: the file under key
file and the selected frequency, unchanged, under key humFrequency. -/
def processFormData (fileField : String) (sel : FreqSelection) : List (String × String) :=
  [("file", fileField), ("humFrequency", freqFieldValue sel)]

/-- The form body built by handleProcessAudio in App_iOS.jsx: same
pass-through of the selected frequency, with the file under key audio. -/
def processFormDataMobile (fileField : String) (sel : FreqSelection) : List (String × String) :=
  [("audio", fileField), ("humFrequency", freqFieldValue sel)]

theorem length_forwardAux {α : Type} [LinearOrderedField α] (c : Coeffs α)
    (xs : List α) (x1 x2 y1 y2 : α) :
    (forwardAux c xs x1 x2 y1 y2).length = xs.length := by
  induction xs generalizing x1 x2 y1 y2 with
  | nil => rfl
  | cons x xs ih => simp [forwardAux, ih]

theorem length_biquadForward {α : Type} [LinearOrderedField α] (c : Coeffs α) (xs : List α) :
    (biquadForward c xs).length = xs.length :=
  length_forwardAux c xs 0 0 0 0

theorem length_filtfilt {α : Type} [LinearOrderedField α] (c : Coeffs α) (xs : List α) :
    (filtfilt c xs).length = xs.length := by
  simp [filtfilt, length_biquadForward]

theorem length_runCascade {α : Type} [LinearOrderedField α] (cs : List (Coeffs α)) (xs : List α) :
    (runCascade cs xs).length = xs.length := by
  induction cs generalizing xs with
  | nil => rfl
  | cons c cs ih => simp [runCascade] at ih ⊢; rw [ih, length_filtfilt]

theorem length_applyCascade {α : Type} [LinearOrderedField α] (cs : List (Coeffs α)) (ch : List α) :
    (applyCascade cs ch).length = ch.length := by
  unfold applyCascade
  split
  · rfl
  · simp [length_runCascade]

/-- Claim C1: for every center frequency strictly between 0 and Nyquist and
every positive quality factor, the Notch Filter Designer produces exactly the
standard biquad notch coefficients, with w0 = 2 pi f / fs and
alpha = sin w0 / (2 Q), each raw coefficient divided by a0 = 1 + alpha, so
that the stored a0 equals 1. -/
theorem designNotch_spec (f qf fs : ℚ) (hf0 : 0 < f) (hfN : f < fs / 2) (hq : 0 < qf) :
    (designNotch f qf fs).b0 =
        1 / (1 + Real.sin (2 * Real.pi * (f : ℝ) / (fs : ℝ)) / (2 * (qf : ℝ))) ∧
      (designNotch f qf fs).b1 =
        -2 * Real.cos (2 * Real.pi * (f : ℝ) / (fs : ℝ)) /
          (1 + Real.sin (2 * Real.pi * (f : ℝ) / (fs : ℝ)) / (2 * (qf : ℝ))) ∧
      (designNotch f qf fs).b2 =
        1 / (1 + Real.sin (2 * Real.pi * (f : ℝ) / (fs : ℝ)) / (2 * (qf : ℝ))) ∧
      (designNotch f qf fs).a0 = 1 ∧
      (designNotch f qf fs).a1 =
        -2 * Real.cos (2 * Real.pi * (f : ℝ) / (fs : ℝ)) /
          (1 + Real.sin (2 * Real.pi * (f : ℝ) / (fs : ℝ)) / (2 * (qf : ℝ))) ∧
      (designNotch f qf fs).a2 =
        (1 - Real.sin (2 * Real.pi * (f : ℝ) / (fs : ℝ)) / (2 * (qf : ℝ))) /
          (1 + Real.sin (2 * Real.pi * (f : ℝ) / (fs : ℝ)) / (2 * (qf : ℝ))) := by
  have hfsQ : (0 : ℚ) < fs := by linarith
  have hfs : (0 : ℝ) < (fs : ℝ) := by exact_mod_cast hfsQ
  have hfR : (0 : ℝ) < (f : ℝ) := by exact_mod_cast hf0
  have hfNR : (f : ℝ) < (fs : ℝ) / 2 := by exact_mod_cast hfN
  have hqR : (0 : ℝ) < (qf : ℝ) := by exact_mod_cast hq
  have hw0pos : 0 < 2 * Real.pi * (f : ℝ) / (fs : ℝ) := by positivity
  have hw0lt : 2 * Real.pi * (f : ℝ) / (fs : ℝ) < Real.pi := by
    rw [div_lt_iff₀ hfs]
    nlinarith [Real.pi_pos]
  have hsin : 0 < Real.sin (2 * Real.pi * (f : ℝ) / (fs : ℝ)) :=
    Real.sin_pos_of_pos_of_lt_pi hw0pos hw0lt
  have halpha : 0 < Real.sin (2 * Real.pi * (f : ℝ) / (fs : ℝ)) / (2 * (qf : ℝ)) := by
    positivity
  have ha0 : (1 + Real.sin (2 * Real.pi * (f : ℝ) / (fs : ℝ)) / (2 * (qf : ℝ))) ≠ 0 := by
    linarith
  refine ⟨rfl, rfl, rfl, ?_, rfl, rfl⟩
  show (1 + Real.sin (2 * Real.pi * (f : ℝ) / (fs : ℝ)) / (2 * (qf : ℝ))) /
      (1 + Real.sin (2 * Real.pi * (f : ℝ) / (fs : ℝ)) / (2 * (qf : ℝ))) = 1
  exact div_self ha0

/-- Witness for C1 at f = 60, Q = 30, fs = 8000. -/
theorem designNotch_spec_witness :
    (designNotch 60 30 8000).b0 =
        1 / (1 + Real.sin (2 * Real.pi * ((60 : ℚ) : ℝ) / ((8000 : ℚ) : ℝ)) /
          (2 * ((30 : ℚ) : ℝ))) ∧
      (designNotch 60 30 8000).b1 =
        -2 * Real.cos (2 * Real.pi * ((60 : ℚ) : ℝ) / ((8000 : ℚ) : ℝ)) /
          (1 + Real.sin (2 * Real.pi * ((60 : ℚ) : ℝ) / ((8000 : ℚ) : ℝ)) /
            (2 * ((30 : ℚ) : ℝ))) ∧
      (designNotch 60 30 8000).b2 =
        1 / (1 + Real.sin (2 * Real.pi * ((60 : ℚ) : ℝ) / ((8000 : ℚ) : ℝ)) /
          (2 * ((30 : ℚ) : ℝ))) ∧
      (designNotch 60 30 8000).a0 = 1 ∧
      (designNotch 60 30 8000).a1 =
        -2 * Real.cos (2 * Real.pi * ((60 : ℚ) : ℝ) / ((8000 : ℚ) : ℝ)) /
          (1 + Real.sin (2 * Real.pi * ((60 : ℚ) : ℝ) / ((8000 : ℚ) : ℝ)) /
            (2 * ((30 : ℚ) : ℝ))) ∧
      (designNotch 60 30 8000).a2 =
        (1 - Real.sin (2 * Real.pi * ((60 : ℚ) : ℝ) / ((8000 : ℚ) : ℝ)) /
            (2 * ((30 : ℚ) : ℝ))) /
          (1 + Real.sin (2 * Real.pi * ((60 : ℚ) : ℝ) / ((8000 : ℚ) : ℝ)) /
            (2 * ((30 : ℚ) : ℝ))) :=
  designNotch_spec 60 30 8000 (by norm_num) (by norm_num) (by norm_num)

/-- Claim C2: on channels of length at least 3, every filter is applied
zero-phase (forward recurrence over the full channel, forward again over the
reversed output, result reversed again), the filters run in list order with
each pass consuming the output of the previous pass, and removeHum applies
the cascade independently per channel. -/
theorem cascade_zero_phase (b : AudioBuffer) (req : ProcessingRequest)
    (c : Coeffs ℝ) (cs : List (Coeffs ℝ)) (xs : List ℝ)
    (h0 : b.numSamples ≠ 0) (h3 : ¬ b.numSamples < 3) :
    filtfilt c xs = (biquadForward c ((biquadForward c xs).reverse)).reverse ∧
      runCascade (c :: cs) xs = runCascade cs (filtfilt c xs) ∧
      runCascade [] xs = xs ∧
      (∀ ch : List ℝ, ¬ ch.length < 3 →
        applyCascade cs ch = (runCascade cs ch).map clip1) ∧
      removeHum b req =
        Except.ok
          ⟨⟨b.channels.map (applyCascade (designStage b req)), b.sampleRate⟩,
            resolveFrequency b req,
            validHarmonics (resolveFrequency b req) req.harmonicCount b.sampleRate⟩ := by
  refine ⟨rfl, by simp [runCascade], rfl, ?_, ?_⟩
  · intro ch hch
    simp [applyCascade, hch]
  · simp [removeHum, h0, h3]

/-- Witness for C2 on a three-sample mono buffer at 8000 Hz. -/
theorem cascade_zero_phase_witness :
    filtfilt (⟨1, 0, 0, 1, 0, 0⟩ : Coeffs ℝ) [] =
        (biquadForward (⟨1, 0, 0, 1, 0, 0⟩ : Coeffs ℝ)
          ((biquadForward (⟨1, 0, 0, 1, 0, 0⟩ : Coeffs ℝ) ([] : List ℝ)).reverse)).reverse ∧
      runCascade [(⟨1, 0, 0, 1, 0, 0⟩ : Coeffs ℝ)] ([] : List ℝ) =
        runCascade [] (filtfilt (⟨1, 0, 0, 1, 0, 0⟩ : Coeffs ℝ) []) ∧
      runCascade [] ([] : List ℝ) = [] ∧
      (∀ ch : List ℝ, ¬ ch.length < 3 →
        applyCascade [] ch = (runCascade [] ch).map clip1) ∧
      removeHum ⟨[[0, 0, 0]], 8000⟩ ⟨TargetFrequency.explicit 60, 3, 30⟩ =
        Except.ok
          ⟨⟨[[0, 0, 0]].map
              (applyCascade
                (designStage ⟨[[0, 0, 0]], 8000⟩ ⟨TargetFrequency.explicit 60, 3, 30⟩)),
              8000⟩,
            60, validHarmonics 60 3 8000⟩ :=
  cascade_zero_phase ⟨[[0, 0, 0]], 8000⟩ ⟨TargetFrequency.explicit 60, 3, 30⟩
    ⟨1, 0, 0, 1, 0, 0⟩ [] [] (by decide) (by decide)

/-- Claim C3: with a resolved positive fundamental f and harmonic count N, the
harmonics applied by the orchestrator are exactly the frequencies k times f
for k in 1..N below Nyquist, in ascending order; harmonics at or above
Nyquist are silently dropped, not an error.  In particular, for N = 3 and
f = 60 the list is [60, 120, 180] at 8000 Hz and [60, 120] at 300 Hz. -/
theorem harmonics_applied (b : AudioBuffer) (req : ProcessingRequest) (f : ℚ)
    (hf : 0 < f) (ht : req.targetFrequency = TargetFrequency.explicit f)
    (h0 : b.numSamples ≠ 0) (h3 : ¬ b.numSamples < 3) :
    (∃ res, removeHum b req = Except.ok res ∧
        res.harmonicsApplied = validHarmonics f req.harmonicCount b.sampleRate) ∧
      validHarmonics f req.harmonicCount b.sampleRate =
        ((List.range req.harmonicCount).map (fun k : ℕ => ((k : ℚ) + 1) * f)).filter
          (fun h => decide (h < b.sampleRate / 2)) ∧
      (validHarmonics f req.harmonicCount b.sampleRate).Pairwise (· < ·) ∧
      validHarmonics 60 3 8000 = [60, 120, 180] ∧
      validHarmonics 60 3 300 = [60, 120] := by
  have hres : resolveFrequency b req = f := by simp [resolveFrequency, ht]
  refine ⟨⟨⟨⟨b.channels.map (applyCascade (designStage b req)), b.sampleRate⟩,
      resolveFrequency b req,
      validHarmonics (resolveFrequency b req) req.harmonicCount b.sampleRate⟩,
      by simp [removeHum, h0, h3], by simp [hres]⟩, ?_, ?_,
    by norm_num [validHarmonics, List.range_succ],
    by norm_num [validHarmonics, List.range_succ]⟩
  · unfold validHarmonics
    refine List.filter_congr ?_
    intro h hh
    simp only [List.mem_map, List.mem_range] at hh
    obtain ⟨k, _, rfl⟩ := hh
    have hpos : 0 < ((k : ℚ) + 1) * f := by positivity
    simp [hpos]
  · have hr : (List.range req.harmonicCount).Pairwise (· < ·) :=
      List.pairwise_lt_range _
    have hm : (((List.range req.harmonicCount).map
        (fun k : ℕ => ((k : ℚ) + 1) * f))).Pairwise (· < ·) := by
      refine hr.map _ ?_
      intro a b hab
      have hcast : (a : ℚ) + 1 < (b : ℚ) + 1 := by
        have : (a : ℚ) < (b : ℚ) := by exact_mod_cast hab
        linarith
      exact mul_lt_mul_of_pos_right hcast hf
    exact List.Pairwise.sublist (List.filter_sublist _) hm

/-- Witness for C3: explicit 60 Hz request with three harmonics on a
three-sample buffer sampled at 8000 Hz. -/
theorem harmonics_applied_witness :
    (∃ res, removeHum ⟨[[0, 0, 0]], 8000⟩ ⟨TargetFrequency.explicit 60, 3, 30⟩ =
          Except.ok res ∧ res.harmonicsApplied = validHarmonics 60 3 8000) ∧
      validHarmonics 60 3 8000 =
        ((List.range 3).map (fun k : ℕ => ((k : ℚ) + 1) * 60)).filter
          (fun h => decide (h < 8000 / 2)) ∧
      (validHarmonics 60 3 8000).Pairwise (· < ·) ∧
      validHarmonics 60 3 8000 = [60, 120, 180] ∧
      validHarmonics 60 3 300 = [60, 120] :=
  harmonics_applied ⟨[[0, 0, 0]], 8000⟩ ⟨TargetFrequency.explicit 60, 3, 30⟩ 60
    (by norm_num) rfl (by decide) (by decide)

/-- Claim C4: removeHum fails exactly on a buffer with zero samples, the only
error it can return is EmptyBufferError, and in that case no result record is
produced at all. -/
theorem removeHum_error_iff (b : AudioBuffer) (req : ProcessingRequest) :
    (removeHum b req = Except.error ProcessingError.emptyBuffer ↔ b.numSamples = 0) ∧
      ∀ e, removeHum b req = Except.error e →
        e = ProcessingError.emptyBuffer ∧ b.numSamples = 0 := by
  by_cases h : b.numSamples = 0
  · refine ⟨by simp [removeHum, h], ?_⟩
    intro e he
    simp [removeHum, h] at he
    exact ⟨he.symm, h⟩
  · have hok : ∀ e, removeHum b req ≠ Except.error e := by
      intro e
      by_cases h3 : b.numSamples < 3 <;> simp [removeHum, h, h3]
    exact ⟨⟨fun hc => absurd hc (hok _), fun hh => absurd hh h⟩,
      fun e he => absurd he (hok _)⟩

/-- Witness for C4: the empty buffer is rejected with EmptyBufferError. -/
theorem removeHum_error_iff_witness :
    removeHum ⟨[], 44100⟩ ⟨TargetFrequency.explicit 60, 3, 30⟩ =
      Except.error ProcessingError.emptyBuffer :=
  (removeHum_error_iff ⟨[], 44100⟩ ⟨TargetFrequency.explicit 60, 3, 30⟩).1.mpr rfl

/-- Claim C5: on a non-empty buffer detectHum never fails: it scores each
candidate (50 Hz and 60 Hz) by the summed spectral magnitude at the candidate
and its first two harmonics normalized by the median magnitude of a
surrounding band, and returns the higher-scoring candidate with that score,
independently of the fixed low-confidence threshold. -/
theorem detectHum_spec (b : AudioBuffer) (h : b.numSamples ≠ 0) :
    detectHum b = Except.ok (bestCandidate b) ∧
      (bestCandidate b).score = max (humScore b 50) (humScore b 60) ∧
      ((bestCandidate b).frequency = 50 ∨ (bestCandidate b).frequency = 60) ∧
      (humScore b 60 < humScore b 50 → bestCandidate b = ⟨50, humScore b 50⟩) ∧
      (humScore b 50 ≤ humScore b 60 → bestCandidate b = ⟨60, humScore b 60⟩) ∧
      (humScore b 50 < detectionThreshold → humScore b 60 < detectionThreshold →
        detectHum b = Except.ok (bestCandidate b)) ∧
      humScore b 50 =
        (magnitudeAt (b.channels.headD []) b.sampleRate 50 +
            magnitudeAt (b.channels.headD []) b.sampleRate (2 * 50) +
            magnitudeAt (b.channels.headD []) b.sampleRate (3 * 50)) /
          noiseFloor (b.channels.headD []) b.sampleRate 50 ∧
      humScore b 60 =
        (magnitudeAt (b.channels.headD []) b.sampleRate 60 +
            magnitudeAt (b.channels.headD []) b.sampleRate (2 * 60) +
            magnitudeAt (b.channels.headD []) b.sampleRate (3 * 60)) /
          noiseFloor (b.channels.headD []) b.sampleRate 60 := by
  have hdet : detectHum b = Except.ok (bestCandidate b) := by simp [detectHum, h]
  refine ⟨hdet, ?_, ?_, ?_, ?_, fun _ _ => hdet, rfl, rfl⟩
  · unfold bestCandidate
    split
    · next hlt => simp [max_eq_left (le_of_lt hlt)]
    · next hge => simp [max_eq_right (not_lt.mp hge)]
  · unfold bestCandidate
    split
    · exact Or.inl rfl
    · exact Or.inr rfl
  · intro hlt
    unfold bestCandidate
    rw [if_pos hlt]
  · intro hle
    unfold bestCandidate
    rw [if_neg (not_lt.mpr hle)]

/-- Witness for C5 on a one-sample mono buffer. -/
theorem detectHum_spec_witness :
    detectHum ⟨[[1]], 100⟩ = Except.ok (bestCandidate ⟨[[1]], 100⟩) ∧
      (bestCandidate ⟨[[1]], 100⟩).score =
        max (humScore ⟨[[1]], 100⟩ 50) (humScore ⟨[[1]], 100⟩ 60) ∧
      ((bestCandidate ⟨[[1]], 100⟩).frequency = 50 ∨
        (bestCandidate ⟨[[1]], 100⟩).frequency = 60) ∧
      (humScore ⟨[[1]], 100⟩ 60 < humScore ⟨[[1]], 100⟩ 50 →
        bestCandidate ⟨[[1]], 100⟩ = ⟨50, humScore ⟨[[1]], 100⟩ 50⟩) ∧
      (humScore ⟨[[1]], 100⟩ 50 ≤ humScore ⟨[[1]], 100⟩ 60 →
        bestCandidate ⟨[[1]], 100⟩ = ⟨60, humScore ⟨[[1]], 100⟩ 60⟩) ∧
      (humScore ⟨[[1]], 100⟩ 50 < detectionThreshold →
        humScore ⟨[[1]], 100⟩ 60 < detectionThreshold →
        detectHum ⟨[[1]], 100⟩ = Except.ok (bestCandidate ⟨[[1]], 100⟩)) ∧
      humScore ⟨[[1]], 100⟩ 50 =
        (magnitudeAt (([[1]] : List (List ℝ)).headD []) 100 50 +
            magnitudeAt (([[1]] : List (List ℝ)).headD []) 100 (2 * 50) +
            magnitudeAt (([[1]] : List (List ℝ)).headD []) 100 (3 * 50)) /
          noiseFloor (([[1]] : List (List ℝ)).headD []) 100 50 ∧
      humScore ⟨[[1]], 100⟩ 60 =
        (magnitudeAt (([[1]] : List (List ℝ)).headD []) 100 60 +
            magnitudeAt (([[1]] : List (List ℝ)).headD []) 100 (2 * 60) +
            magnitudeAt (([[1]] : List (List ℝ)).headD []) 100 (3 * 60)) /
          noiseFloor (([[1]] : List (List ℝ)).headD []) 100 60 :=
  detectHum_spec ⟨[[1]], 100⟩ (by decide)

/-- Claim C6: every successful removeHum run returns a buffer with the same
channel count and the same per-channel sample count as the input, so the
equal-positive-length invariant is preserved. -/
theorem removeHum_preserves_shape (b : AudioBuffer) (req : ProcessingRequest)
    (res : ProcessingResult) (h : removeHum b req = Except.ok res) :
    res.buffer.channels.length = b.channels.length ∧
      res.buffer.channels.map List.length = b.channels.map List.length ∧
      ∀ L : ℕ, (∀ ch ∈ b.channels, ch.length = L) →
        ∀ ch ∈ res.buffer.channels, ch.length = L := by
  unfold removeHum at h
  by_cases h0 : b.numSamples = 0
  · simp [h0] at h
  · by_cases h3 : b.numSamples < 3
    · simp [h0, h3] at h
      subst h
      exact ⟨rfl, rfl, fun L hL ch hch => hL ch hch⟩
    · simp [h0, h3] at h
      subst h
      refine ⟨by simp, ?_, ?_⟩
      · rw [List.map_map]
        refine List.map_congr_left ?_
        intro ch _
        simp [length_applyCascade]
      · intro L hL ch hch
        simp only [List.mem_map] at hch
        obtain ⟨ch0, hch0, rfl⟩ := hch
        rw [length_applyCascade]
        exact hL ch0 hch0

/-- Witness for C6 on a two-sample mono buffer. -/
theorem removeHum_preserves_shape_witness :
    (⟨⟨[[0, 0]], 44100⟩, 60, []⟩ : ProcessingResult).buffer.channels.length =
        ([[0, 0]] : List (List ℝ)).length ∧
      (⟨⟨[[0, 0]], 44100⟩, 60, []⟩ : ProcessingResult).buffer.channels.map List.length =
        ([[0, 0]] : List (List ℝ)).map List.length ∧
      ∀ L : ℕ, (∀ ch ∈ ([[0, 0]] : List (List ℝ)), ch.length = L) →
        ∀ ch ∈ (⟨⟨[[0, 0]], 44100⟩, 60, []⟩ : ProcessingResult).buffer.channels,
          ch.length = L :=
  removeHum_preserves_shape ⟨[[0, 0]], 44100⟩ ⟨TargetFrequency.explicit 60, 3, 30⟩
    ⟨⟨[[0, 0]], 44100⟩, 60, []⟩ rfl

/-- Claim C7: whenever removeHum succeeds on a buffer whose samples respect
the [-1, 1] normalization invariant, every output sample lies in [-1, 1],
and the per-sample clip is a saturation: identity in range, clamped to the
nearest bound outside, never a wraparound. -/
theorem removeHum_output_range (b : AudioBuffer) (req : ProcessingRequest)
    (res : ProcessingResult)
    (hin : ∀ ch ∈ b.channels, ∀ x ∈ ch, -1 ≤ x ∧ x ≤ 1)
    (h : removeHum b req = Except.ok res) :
    (∀ ch ∈ res.buffer.channels, ∀ x ∈ ch, -1 ≤ x ∧ x ≤ 1) ∧
      (∀ y : ℝ, -1 ≤ clip1 y ∧ clip1 y ≤ 1) ∧
      (∀ y : ℝ, -1 ≤ y → y ≤ 1 → clip1 y = y) ∧
      (∀ y : ℝ, 1 < y → clip1 y = 1) ∧
      (∀ y : ℝ, y < -1 → clip1 y = -1) := by
  have hclipBounds : ∀ y : ℝ, -1 ≤ clip1 y ∧ clip1 y ≤ 1 := by
    intro y
    exact ⟨le_max_left _ _, max_le (by norm_num) (min_le_left _ _)⟩
  refine ⟨?_, hclipBounds, ?_, ?_, ?_⟩
  · unfold removeHum at h
    by_cases h0 : b.numSamples = 0
    · simp [h0] at h
    · by_cases h3 : b.numSamples < 3
      · simp [h0, h3] at h
        subst h
        exact hin
      · simp [h0, h3] at h
        subst h
        intro ch hch
        simp only [List.mem_map] at hch
        obtain ⟨ch0, hch0, rfl⟩ := hch
        unfold applyCascade
        split
        · exact hin ch0 hch0
        · intro x hx
          simp only [List.mem_map] at hx
          obtain ⟨y, _, rfl⟩ := hx
          exact hclipBounds y
  · intro y hy1 hy2
    unfold clip1
    rw [min_eq_right hy2, max_eq_right hy1]
  · intro y hy
    unfold clip1
    rw [min_eq_left (le_of_lt hy), max_eq_right (by norm_num : (-1 : ℝ) ≤ 1)]
  · intro y hy
    unfold clip1
    rw [min_eq_right (le_of_lt (lt_trans hy (by norm_num))), max_eq_left (le_of_lt hy)]

/-- Witness for C7 on a two-sample zero buffer. -/
theorem removeHum_output_range_witness :
    (∀ ch ∈ (⟨⟨[[0, 0]], 44100⟩, 60, []⟩ : ProcessingResult).buffer.channels,
        ∀ x ∈ ch, -1 ≤ x ∧ x ≤ 1) ∧
      (∀ y : ℝ, -1 ≤ clip1 y ∧ clip1 y ≤ 1) ∧
      (∀ y : ℝ, -1 ≤ y → y ≤ 1 → clip1 y = y) ∧
      (∀ y : ℝ, 1 < y → clip1 y = 1) ∧
      (∀ y : ℝ, y < -1 → clip1 y = -1) :=
  removeHum_output_range ⟨[[0, 0]], 44100⟩ ⟨TargetFrequency.explicit 60, 3, 30⟩
    ⟨⟨[[0, 0]], 44100⟩, 60, []⟩
    (by intro ch hch x hx; simp at hch; subst hch; simp at hx; subst hx; norm_num) rfl

/-- Claim C8: a non-empty buffer whose channels are all shorter than 3
samples is returned bit-identical, with no error and zero harmonics
applied. -/
theorem removeHum_degenerate (b : AudioBuffer) (req : ProcessingRequest)
    (h0 : b.numSamples ≠ 0) (hshort : ∀ ch ∈ b.channels, ch.length < 3) :
    removeHum b req = Except.ok ⟨b, resolveFrequency b req, []⟩ := by
  have hne : b.channels ≠ [] := by
    intro hc
    exact h0 (by simp [AudioBuffer.numSamples, hc])
  have hmem : b.channels.headD [] ∈ b.channels := by
    cases bc : b.channels with
    | nil => exact absurd bc hne
    | cons a l => simp [bc]
  have h3 : b.numSamples < 3 := by
    unfold AudioBuffer.numSamples
    exact hshort _ hmem
  simp [removeHum, h0, h3]

/-- Witness for C8: a two-sample mono buffer passes through unchanged with an
empty harmonics list. -/
theorem removeHum_degenerate_witness :
    removeHum ⟨[[0, 0]], 44100⟩ ⟨TargetFrequency.explicit 60, 3, 30⟩ =
      Except.ok ⟨⟨[[0, 0]], 44100⟩, 60, []⟩ :=
  removeHum_degenerate ⟨[[0, 0]], 44100⟩ ⟨TargetFrequency.explicit 60, 3, 30⟩
    (by decide) (by decide)

/-- Claim C9: the request layer passes the user-selected target frequency
through to the processing request unchanged; the three selectable values
(auto, 50, 60) reach the form body under key humFrequency with three
pairwise distinct encodings, so no translation, substitution or defaulting
happens on the way. -/
theorem formData_passthrough (fileField : String) (sel : FreqSelection) :
    processFormData fileField sel =
        [("file", fileField), ("humFrequency", freqFieldValue sel)] ∧
      processFormDataMobile fileField sel =
        [("audio", fileField), ("humFrequency", freqFieldValue sel)] ∧
      freqFieldValue FreqSelection.auto = "auto" ∧
      freqFieldValue (FreqSelection.hz 50) = "50" ∧
      freqFieldValue (FreqSelection.hz 60) = "60" ∧
      freqFieldValue FreqSelection.auto ≠ freqFieldValue (FreqSelection.hz 50) ∧
      freqFieldValue FreqSelection.auto ≠ freqFieldValue (FreqSelection.hz 60) ∧
      freqFieldValue (FreqSelection.hz 50) ≠ freqFieldValue (FreqSelection.hz 60) :=
  ⟨rfl, rfl, rfl, rfl, rfl, by decide, by decide, by decide⟩

/-- Witness for C9: an auto-mode submission carries the literal value auto. -/
theorem formData_passthrough_witness :
    processFormData "recording.wav" FreqSelection.auto =
      [("file", "recording.wav"), ("humFrequency", freqFieldValue FreqSelection.auto)] :=
  (formData_passthrough "recording.wav" FreqSelection.auto).1

/-- Claim C10: client-side validateFile rejects exactly the files that are
oversized or have neither an allowed MIME type nor an allowed lowercased
extension; the size check takes precedence, and every other file is accepted
with no error. -/
theorem validateFile_spec (f : JsFile) :
    (validateFile f = Except.ok () ↔
        f.size ≤ maxSize ∧
          (f.type ∈ allowedTypes ∨ fileExtension f.name ∈ allowedExtensions)) ∧
      (maxSize < f.size → validateFile f = Except.error FileError.tooLarge) ∧
      (validateFile f = Except.error FileError.invalidType ↔
        f.size ≤ maxSize ∧ ¬ f.type ∈ allowedTypes ∧
          ¬ fileExtension f.name ∈ allowedExtensions) := by
  unfold validateFile
  by_cases hs : maxSize < f.size
  · have hle : ¬ f.size ≤ maxSize := not_le.mpr hs
    rw [if_pos hs]
    exact ⟨by simp [hle], fun _ => rfl, by simp [hle]⟩
  · have hle : f.size ≤ maxSize := not_lt.mp hs
    rw [if_neg hs]
    by_cases ht : ¬ f.type ∈ allowedTypes ∧ ¬ fileExtension f.name ∈ allowedExtensions
    · rw [if_pos ht]
      exact ⟨by simp [ht.1, ht.2], fun hcon => absurd hcon hs,
        by simp [hle, ht.1, ht.2]⟩
    · rw [if_neg ht]
      have hor : f.type ∈ allowedTypes ∨ fileExtension f.name ∈ allowedExtensions := by
        tauto
      refine ⟨by simp [hle, hor], fun hcon => absurd hcon hs, ?_⟩
      simp only [false_iff, reduceCtorEq]
      tauto

/-- Witness for C10: a 50 MB plus one byte file is rejected as too large, and
a small mpeg file is accepted. -/
theorem validateFile_spec_witness :
    validateFile ⟨"big.wav", 52428801, "audio/wav"⟩ = Except.error FileError.tooLarge ∧
      validateFile ⟨"song.mp3", 1000, "audio/mpeg"⟩ = Except.ok () :=
  ⟨(validateFile_spec ⟨"big.wav", 52428801, "audio/wav"⟩).2.1 (by norm_num [maxSize]),
    (validateFile_spec ⟨"song.mp3", 1000, "audio/mpeg"⟩).1.mpr
      ⟨by norm_num [maxSize], Or.inl (by decide)⟩⟩

end HumRemoval
